import Mathlib

/-!
Verification of the reasoning-graph engine of `deepseek_chat_app.py`.

This file gives a shallow embedding, in Lean 4, of the core operations of the
program: the deterministic retrieval fallback (`_string_search_retrieval_label`),
the AI retrieval pass and its timeout configuration
(`_load_from_database_by_query`, `_get_default_label_text_config`), the
fragment redundancy filter (`_filter_redundant_nodes`), the fragment merge
performed by the interactive window and the reflection handler
(`_on_fansi` / `on_send`), the content-addressed store
(`_get_or_insert_content_id`), session persistence and loading
(`_save_to_database`, `_load_from_database_by_query`), and the bright-cursor
state machine of the interactive window (`_open_interactive_window`,
`on_continue`, `_is_flowchart_fully_bright`, `_on_caiqu`).

Python strings are modelled as `List Char`; `str.lower` is modelled as the
character-wise `Char.toLower` (length preserving) and `str.strip` as removal
of leading and trailing whitespace characters.  Machine-level details such as
SQLite itself are modelled by in-memory tables (lists of rows with integer
primary keys assigned `max + 1` on insert, matching autoincrement behaviour on
the tables the program creates).

Definitions translated from the source keep the Python names (with the leading
underscore dropped).  Definitions whose names start with `claim_` instead
transcribe the wording of the specification and are compared with the
source-derived definitions.
-/

/-- Python `str.strip()`: remove leading and trailing whitespace. -/
def pyStrip (s : List Char) : List Char :=
  ((s.dropWhile Char.isWhitespace).reverse.dropWhile Char.isWhitespace).reverse

/-- Python `str.lower()`, modelled character-wise. -/
def pyLower (s : List Char) : List Char :=
  s.map Char.toLower

/-- Python `s or dflt` for strings: the default replaces an empty string. -/
def pyOrElse (s dflt : List Char) : List Char :=
  if s.isEmpty then dflt else s

/-- Python substring test `sub in s`: `sub` occurs contiguously in `s`. -/
def strContains (s sub : List Char) : Bool :=
  (List.range (s.length + 1)).any (fun i => (s.drop i).take sub.length == sub)

/-- A row of the `retrieval_label` table: `(session_id, label_text)`. -/
structure LabelRow where
  session_id : Nat
  label_text : List Char
  deriving DecidableEq, Repr

/-- The lowercased, stripped label text of a row, as computed by
`_string_search_retrieval_label` (`label = (r.get('label_text') or '').strip().lower()`). -/
def row_label (r : LabelRow) : List Char :=
  pyLower (pyStrip r.label_text)

/-- The inner offset loop of `_string_search_retrieval_label`:
`for i in range(len(q) - ln + 1): sub = q_lower[i:i+ln]; if sub in label and
ln > best_len: best_len = ln; best_sid = r['session_id']; break`.
`best` is the running pair `(best_len, best_sid)`. -/
def scan_offsets (qLower lab : List Char) (ln sid : Nat) (best : Nat × Nat) :
    List Nat → Nat × Nat
  | [] => best
  | i :: is =>
    if strContains lab ((qLower.drop i).take ln) && decide (best.1 < ln) then
      (ln, sid)
    else
      scan_offsets qLower lab ln sid best is

/-- The candidate lengths `range(m, 0, -1) = [m, m-1, ..., 1]`. -/
def desc_range : Nat → List Nat
  | 0 => []
  | k + 1 => (k + 1) :: desc_range k

/-- The outer length loop of `_string_search_retrieval_label`:
`for ln in range(min(len(q), len(label)), 0, -1): ...`. -/
def scan_lens (qLower lab : List Char) (qLen sid : Nat) (best : Nat × Nat) :
    List Nat → Nat × Nat
  | [] => best
  | ln :: rest =>
    scan_lens qLower lab qLen sid
      (scan_offsets qLower lab ln sid best (List.range (qLen - ln + 1))) rest

/-- The row loop of `_string_search_retrieval_label`: skip rows whose stripped
label is empty, return the session id of the first row whose label contains
the query, otherwise update the running best substring match. -/
def search_rows (q qLower : List Char) (best : Nat × Nat) : List LabelRow → Nat
  | [] => best.2
  | r :: rest =>
    let lab := row_label r
    if lab.isEmpty then
      search_rows q qLower best rest
    else if strContains lab qLower then
      r.session_id
    else
      search_rows q qLower
        (scan_lens qLower lab q.length r.session_id best
          (desc_range (min q.length lab.length))) rest

/-- `_string_search_retrieval_label(rows, query)`: the deterministic substring
fallback of the retrieval engine. -/
def string_search_retrieval_label (rows : List LabelRow) (query : List Char) : Nat :=
  if query.isEmpty || rows.isEmpty then 0
  else
    let q := pyStrip query
    if q.isEmpty then 0
    else search_rows q (pyLower q) (0, 0) rows

/-- Does some length-`ln` contiguous substring of the query occur in the label?
(The claim's "for each length scanning query start offsets left-to-right".) -/
def has_common_sub (qLower lab : List Char) (ln : Nat) : Bool :=
  (List.range (qLower.length - ln + 1)).any
    (fun i => strContains lab ((qLower.drop i).take ln))

/-- The largest `ln ≤ k` with `1 ≤ ln` such that a length-`ln` substring of the
query occurs in the label, scanning `k, k-1, ..., 1`; `0` if none. -/
def best_common_len (qLower lab : List Char) : Nat → Nat
  | 0 => 0
  | k + 1 => if has_common_sub qLower lab (k + 1) then k + 1 else best_common_len qLower lab k

/-- The claim's per-label quantity: the length of the longest contiguous
substring of the query appearing anywhere in the label, candidate lengths
scanned from `min (len query) (len label)` down to `1`. -/
def lcs_len (qLower lab : List Char) : Nat :=
  best_common_len qLower lab (min qLower.length lab.length)

/-- Transcription of claim C1's fallback rule as literally stated (no
stripping, labels compared after case folding only, no rows skipped): the
session id of the first label fully containing the query case-insensitively,
else the session id achieving the strict maximum of `lcs_len`, else `0`. -/
def claim_fallback_literal (rows : List LabelRow) (query : List Char) : Nat :=
  let qLower := pyLower query
  match rows.find? (fun r => strContains (pyLower r.label_text) qLower) with
  | some r => r.session_id
  | none =>
    (rows.foldl
      (fun best r =>
        if best.1 < lcs_len qLower (pyLower r.label_text) then
          (lcs_len qLower (pyLower r.label_text), r.session_id)
        else best)
      (0, 0)).2

/-- The amended fallback rule: both the query and every label are stripped of
leading/trailing whitespace and lowercased before comparison, labels that
strip to empty are skipped, and an empty (or all-whitespace) query or an empty
row list yields `0`; otherwise first full containment in stored order wins,
else the strict maximum of the longest-common-substring length, else `0`. -/
def claim_fallback_amended (rows : List LabelRow) (query : List Char) : Nat :=
  if query.isEmpty || rows.isEmpty then 0
  else
    let q := pyStrip query
    if q.isEmpty then 0
    else
      let qLower := pyLower q
      let good := rows.filter (fun r => !(row_label r).isEmpty)
      match good.find? (fun r => strContains (row_label r) qLower) with
      | some r => r.session_id
      | none =>
        (good.foldl
          (fun best r =>
            if best.1 < lcs_len qLower (row_label r) then
              (lcs_len qLower (row_label r), r.session_id)
            else best)
          (0, 0)).2

theorem scan_offsets_of_le {qLower lab : List Char} {ln sid : Nat} {best : Nat × Nat}
    (h : ln ≤ best.1) : ∀ is, scan_offsets qLower lab ln sid best is = best := by
  intro is
  have hd : decide (best.1 < ln) = false := decide_eq_false (Nat.not_lt.mpr h)
  induction is with
  | nil => rfl
  | cons i is ih => simp [scan_offsets, hd, ih]

theorem scan_offsets_of_lt {qLower lab : List Char} {ln sid : Nat} {best : Nat × Nat}
    (h : best.1 < ln) :
    ∀ is, scan_offsets qLower lab ln sid best is =
      if is.any (fun i => strContains lab ((qLower.drop i).take ln)) then (ln, sid) else best := by
  intro is
  have hd : decide (best.1 < ln) = true := decide_eq_true h
  induction is with
  | nil => rfl
  | cons i is ih =>
    simp only [scan_offsets, hd, Bool.and_true, List.any_cons]
    by_cases hc : strContains lab ((qLower.drop i).take ln)
    · simp [hc]
    · simp [hc, ih]

theorem best_common_len_le (qLower lab : List Char) : ∀ k, best_common_len qLower lab k ≤ k := by
  intro k
  induction k with
  | zero => simp [best_common_len]
  | succ k ih =>
    simp only [best_common_len]
    split
    · exact Nat.le_refl _
    · exact Nat.le_succ_of_le ih

theorem scan_lens_desc {qLower lab : List Char} {qLen sid : Nat}
    (hq : qLen = qLower.length) :
    ∀ k best, scan_lens qLower lab qLen sid best (desc_range k) =
      if best.1 < best_common_len qLower lab k then (best_common_len qLower lab k, sid)
      else best := by
  intro k
  induction k with
  | zero =>
    intro best
    simp [desc_range, scan_lens, best_common_len]
  | succ k ih =>
    intro best
    simp only [desc_range, scan_lens]
    by_cases hbest : best.1 < k + 1
    · rw [scan_offsets_of_lt hbest]
      by_cases hc : has_common_sub qLower lab (k + 1)
      · have hany : (List.range (qLen - (k + 1) + 1)).any
            (fun i => strContains lab ((qLower.drop i).take (k + 1))) = true := by
          rw [hq]
          simpa [has_common_sub] using hc
        rw [if_pos hany, ih]
        have hk : ¬ (k + 1 < best_common_len qLower lab k) :=
          Nat.not_lt.mpr (Nat.le_succ_of_le (best_common_len_le qLower lab k))
        rw [if_neg hk]
        simp [best_common_len, hc, hbest]
      · have hany : (List.range (qLen - (k + 1) + 1)).any
            (fun i => strContains lab ((qLower.drop i).take (k + 1))) = false := by
          rw [hq]
          simpa [has_common_sub] using hc
        rw [hany, if_neg (by simp), ih]
        simp [best_common_len, hc]
    · have hle : k + 1 ≤ best.1 := Nat.not_lt.mp hbest
      rw [scan_offsets_of_le hle, ih]
      have h1 : ¬ (best.1 < best_common_len qLower lab k) :=
        Nat.not_lt.mpr (le_trans (best_common_len_le qLower lab k)
          (le_trans (Nat.le_succ k) hle))
      have h2 : ¬ (best.1 < best_common_len qLower lab (k + 1)) := by
        simp only [best_common_len]
        split
        · exact hbest
        · exact h1
      simp [h1, h2]

theorem pyLower_length (s : List Char) : (pyLower s).length = s.length := by
  simp [pyLower]

/-- The declarative row scan: first row (blank labels skipped) whose label
contains the query wins, otherwise fold the strict-maximum update over the
remaining rows, starting from `best`. -/
def claim_core (qLower : List Char) (best : Nat × Nat) (rows : List LabelRow) : Nat :=
  let good := rows.filter (fun r => !(row_label r).isEmpty)
  match good.find? (fun r => strContains (row_label r) qLower) with
  | some r => r.session_id
  | none =>
    (good.foldl
      (fun b r =>
        if b.1 < lcs_len qLower (row_label r) then (lcs_len qLower (row_label r), r.session_id)
        else b)
      best).2

theorem claim_core_nil (qLower : List Char) (best : Nat × Nat) :
    claim_core qLower best [] = best.2 := rfl

theorem claim_core_cons_skip {r : LabelRow} (qLower : List Char) (best : Nat × Nat)
    (rest : List LabelRow) (h : (row_label r).isEmpty = true) :
    claim_core qLower best (r :: rest) = claim_core qLower best rest := by
  simp [claim_core, List.filter_cons, h]

theorem claim_core_cons_hit {r : LabelRow} {qLower : List Char} (best : Nat × Nat)
    (rest : List LabelRow) (h1 : (row_label r).isEmpty = false)
    (h2 : strContains (row_label r) qLower = true) :
    claim_core qLower best (r :: rest) = r.session_id := by
  simp [claim_core, List.filter_cons, h1, List.find?_cons_of_pos, h2]

theorem claim_core_cons_step {r : LabelRow} {qLower : List Char} (best : Nat × Nat)
    (rest : List LabelRow) (h1 : (row_label r).isEmpty = false)
    (h2 : strContains (row_label r) qLower = false) :
    claim_core qLower best (r :: rest) =
      claim_core qLower
        (if best.1 < lcs_len qLower (row_label r) then (lcs_len qLower (row_label r), r.session_id)
         else best) rest := by
  simp [claim_core, List.filter_cons, h1, List.find?_cons_of_neg, h2]

theorem search_rows_eq_core (q : List Char) :
    ∀ (rows : List LabelRow) (best : Nat × Nat),
      search_rows q (pyLower q) best rows = claim_core (pyLower q) best rows := by
  intro rows
  induction rows with
  | nil => intro best; rfl
  | cons r rest ih =>
    intro best
    by_cases hlab : (row_label r).isEmpty
    · rw [claim_core_cons_skip _ _ _ hlab]
      simp only [search_rows, hlab, if_pos]
      exact ih best
    · have hlab' : (row_label r).isEmpty = false := by simpa using hlab
      by_cases hcont : strContains (row_label r) (pyLower q)
      · rw [claim_core_cons_hit _ _ hlab' hcont]
        simp only [search_rows, hlab', Bool.false_eq_true, if_false, hcont, if_pos]
      · have hcont' : strContains (row_label r) (pyLower q) = false := by simpa using hcont
        rw [claim_core_cons_step _ _ hlab' hcont']
        simp only [search_rows, hlab', Bool.false_eq_true, if_false, hcont', if_neg]
        rw [scan_lens_desc (pyLower_length q).symm]
        have hmin : min q.length (row_label r).length = min (pyLower q).length (row_label r).length := by
          rw [pyLower_length]
        rw [hmin]
        exact ih _

/-- Claim C1 (amended): for every query and stored row list, the deterministic
substring fallback `_string_search_retrieval_label` agrees with the claimed
rule applied to the stripped, lowercased query and labels — blank labels
skipped, first full containment in stored order wins, otherwise the label
achieving the strict maximum of the longest-common-substring length
(candidate lengths scanned from `min (len query) (len label)` down to 1,
ties kept by the earlier label), and `0` when nothing matches or the query
strips to empty. -/
theorem c1_string_search_matches_amended_claim (rows : List LabelRow) (query : List Char) :
    string_search_retrieval_label rows query = claim_fallback_amended rows query := by
  unfold string_search_retrieval_label claim_fallback_amended
  by_cases h1 : (query.isEmpty || rows.isEmpty) = true
  · simp only [h1, if_pos]
  · simp only [h1, Bool.false_eq_true, if_false]
    by_cases h2 : (pyStrip query).isEmpty
    · simp only [h2, if_pos]
    · simp only [h2, Bool.false_eq_true, if_false]
      rw [search_rows_eq_core (pyStrip query) rows (0, 0)]
      rfl

/-- Claim C1, counterexample to the literal statement: with query `"a bz"` and
stored rows `[(2, " b"), (1, "bz!")]`, the claimed rule (which never strips
whitespace) computes longest-common-substring length 2 for the first stored
label `" b"` (via the substring `" b"` of the query) and returns session 2,
while the code strips labels before matching, giving the first label length 1
and the second label length 2, and returns session 1. -/
theorem c1_counterexample :
    string_search_retrieval_label [⟨2, [' ', 'b']⟩, ⟨1, ['b', 'z', '!']⟩] ['a', ' ', 'b', 'z'] = 1 ∧
    claim_fallback_literal [⟨2, [' ', 'b']⟩, ⟨1, ['b', 'z', '!']⟩] ['a', ' ', 'b', 'z'] = 2 := by
  constructor
  · decide
  · decide

/-- The `retrieval_timeout_seconds` entry of `_get_default_label_text_config`
(`'retrieval_timeout_seconds': 30`), also the fallback value used by
`cfg.get('retrieval_timeout_seconds', 30)`. -/
def default_retrieval_timeout_seconds : Int := 30

/-- `timeout_sec = max(5, int(_load_label_text_config().get('retrieval_timeout_seconds', 30)))`
from `_load_from_database_by_query`.  `configured` is the integer value of the
configured entry, `none` when the key is absent. -/
def retrieval_timeout_sec (configured : Option Int) : Int :=
  max 5 (configured.getD default_retrieval_timeout_seconds)

/-- Outcome of the bounded AI worker `fut.result(timeout=timeout_sec)`:
either a session id, or a `FuturesTimeoutError`, or any other exception. -/
inductive AiFailure where
  | timeout
  | exception
  deriving DecidableEq, Repr

/-- The `try/except` dispatch of `_load_from_database_by_query`: a successful
AI pass supplies the session id; a timeout or any other exception falls back
to `_string_search_retrieval_label(rows, query)`. -/
def retrieval_session_id (outcome : Except AiFailure Nat) (rows : List LabelRow)
    (query : List Char) : Nat :=
  match outcome with
  | .ok sid => sid
  | .error _ => string_search_retrieval_label rows query

/-- Claim C2: the AI retrieval pass has a configurable timeout whose default is
30 seconds and whose effective value is never below 5 seconds, and every
failure of the AI pass (timeout or exception) is absorbed by running the
deterministic substring fallback instead of surfacing the error. -/
theorem c2_timeout_and_fallback :
    retrieval_timeout_sec none = 30 ∧
    (∀ configured : Option Int, 5 ≤ retrieval_timeout_sec configured) ∧
    (∀ (e : AiFailure) (rows : List LabelRow) (query : List Char),
      retrieval_session_id (Except.error e) rows query =
        string_search_retrieval_label rows query) := by
  refine ⟨rfl, ?_, ?_⟩
  · intro configured
    exact le_max_left 5 _
  · intro e rows query
    rfl

/-- Helper for `re.findall(r'\d+', body)`: accumulate the current digit run
(in reverse) while scanning the remaining characters. -/
def digit_runs_aux : List Char → List Char → List (List Char)
  | cur, [] => if cur.isEmpty then [] else [cur.reverse]
  | cur, c :: rest =>
    if c.isDigit then digit_runs_aux (c :: cur) rest
    else if cur.isEmpty then digit_runs_aux [] rest
    else cur.reverse :: digit_runs_aux [] rest

/-- `re.findall(r'\d+', body)`: the maximal runs of digits in `body`, in
left-to-right order. -/
def digit_runs (s : List Char) : List (List Char) :=
  digit_runs_aux [] s

/-- Python `int(w)` on a digit run. -/
def nat_of_digits (w : List Char) : Nat :=
  w.foldl (fun n c => 10 * n + (c.toNat - '0'.toNat)) 0

/-- The body of `do_ai_match` after the completion call
(`_load_from_database_by_query`): strip the reply, scan its integers
left-to-right, and return the first one that equals a stored
`session_id`, else `0`. -/
def do_ai_match (body : List Char) (rows : List LabelRow) : Nat :=
  match (digit_runs (pyStrip body)).find?
      (fun w => rows.any (fun r => r.session_id == nat_of_digits w)) with
  | some w => nat_of_digits w
  | none => 0

/-- Claim C10: whatever text the completion service returns, the AI retrieval
pass only ever resolves to `0` or to a `session_id` actually present among the
stored retrieval-label rows — never to an arbitrary number from the reply. -/
theorem c10_ai_match_only_stored_session_ids (body : List Char) (rows : List LabelRow) :
    do_ai_match body rows = 0 ∨ ∃ r ∈ rows, r.session_id = do_ai_match body rows := by
  unfold do_ai_match
  cases hfind : (digit_runs (pyStrip body)).find?
      (fun w => rows.any (fun r => r.session_id == nat_of_digits w)) with
  | none => left; rfl
  | some w =>
    right
    have hp := List.find?_some hfind
    rw [List.any_eq_true] at hp
    obtain ⟨r, hr, he⟩ := hp
    refine ⟨r, hr, ?_⟩
    simpa using he

/-- A flowchart node dictionary: `{'id': ..., 'type': ..., 'text': ...}`, with
an optional `db_content_id` (`ref`) for nodes loaded from the database.  `id`
is optional because the code reads it as `n.get('id', i + 1)`. -/
structure FNode where
  id : Option Nat
  ntype : List Char
  text : List Char
  ref : Option Nat
  deriving DecidableEq, Repr

/-- The loop body of `_filter_redundant_nodes`: skip nodes whose stripped text
is empty, drop nodes redundant against the bright list, keep the rest. -/
def filter_loop (bright_list : List (List Char)) : List FNode → List FNode
  | [] => []
  | n :: rest =>
    let t := pyStrip n.text
    if t.isEmpty then filter_loop bright_list rest
    else if bright_list.any (fun b => strContains (pyLower t) b || strContains b (pyLower t)) then
      filter_loop bright_list rest
    else n :: filter_loop bright_list rest

/-- `_filter_redundant_nodes(new_nodes, bright_texts)`: with a non-empty bright
list, drop fragment nodes whose stripped text is empty or redundant (substring
either way, after strip + lower) against some non-blank bright text; if that
would drop everything, return the input unchanged. -/
def filter_redundant_nodes (new_nodes : List FNode) (bright_texts : List (List Char)) :
    List FNode :=
  if bright_texts.isEmpty then new_nodes
  else
    let bright_list :=
      (bright_texts.filter (fun t => !t.isEmpty && !(pyStrip t).isEmpty)).map
        (fun t => pyLower (pyStrip t))
    let filtered := filter_loop bright_list new_nodes
    if filtered.isEmpty then new_nodes else filtered

/-- Transcription of claim C4 as literally stated: remove exactly the nodes
whose text (compared case-insensitively, without stripping) is a substring of
some bright text or contains some bright text; if that would remove every
node, return the original list. -/
def claim_filter_literal (new_nodes : List FNode) (bright_texts : List (List Char)) :
    List FNode :=
  let keep := new_nodes.filter (fun n =>
    !(bright_texts.any (fun b =>
      strContains (pyLower b) (pyLower n.text) || strContains (pyLower n.text) (pyLower b))))
  if keep.isEmpty then new_nodes else keep

/-- The amended filtering rule: with an empty bright list the input is returned
unchanged; otherwise a node is kept iff its stripped text is non-empty and is
not, after stripping and lowercasing, a substring of nor a superstring of any
bright text that strips to non-empty (also stripped and lowercased); if no
node survives, the original list is returned. -/
def claim_filter_amended (new_nodes : List FNode) (bright_texts : List (List Char)) :
    List FNode :=
  if bright_texts.isEmpty then new_nodes
  else
    let brights := ((bright_texts.map pyStrip).filter (fun t => !t.isEmpty)).map pyLower
    let keep := new_nodes.filter (fun n =>
      !(pyStrip n.text).isEmpty &&
        !(brights.any (fun b =>
          strContains (pyLower (pyStrip n.text)) b || strContains b (pyLower (pyStrip n.text)))))
    if keep.isEmpty then new_nodes else keep

theorem bright_list_eq (bright_texts : List (List Char)) :
    (bright_texts.filter (fun t => !t.isEmpty && !(pyStrip t).isEmpty)).map
        (fun t => pyLower (pyStrip t)) =
      ((bright_texts.map pyStrip).filter (fun t => !t.isEmpty)).map pyLower := by
  induction bright_texts with
  | nil => rfl
  | cons t rest ih =>
    by_cases hs : (pyStrip t).isEmpty
    · have ht : t.isEmpty = true ∨ t.isEmpty = false := by
        cases t.isEmpty <;> simp
      simp only [List.map_cons, List.filter_cons, hs, Bool.not_true, Bool.and_false]
      rcases ht with ht | ht <;> simp [ht, hs, ih]
    · have hs' : (pyStrip t).isEmpty = false := by simpa using hs
      have ht : t.isEmpty = false := by
        by_contra hcon
        have : t = [] := by
          cases t with
          | nil => rfl
          | cons a l => simp at hcon
        rw [this] at hs'
        simp [pyStrip] at hs'
      simp [List.filter_cons, hs', ht, ih]

theorem filter_loop_eq_filter (bright_list : List (List Char)) (l : List FNode) :
    filter_loop bright_list l =
      l.filter (fun n =>
        !(pyStrip n.text).isEmpty &&
          !(bright_list.any (fun b =>
            strContains (pyLower (pyStrip n.text)) b ||
              strContains b (pyLower (pyStrip n.text))))) := by
  induction l with
  | nil => rfl
  | cons n rest ih =>
    by_cases h1 : (pyStrip n.text).isEmpty
    · simp [filter_loop, h1, List.filter_cons, ih]
    · have h1' : (pyStrip n.text).isEmpty = false := by simpa using h1
      by_cases h2 : (bright_list.any (fun b =>
          strContains (pyLower (pyStrip n.text)) b ||
            strContains b (pyLower (pyStrip n.text))))
      · simp [filter_loop, h1', h2, List.filter_cons, ih]
      · have h2' : (bright_list.any (fun b =>
            strContains (pyLower (pyStrip n.text)) b ||
              strContains b (pyLower (pyStrip n.text)))) = false := by simpa using h2
        simp [filter_loop, h1', h2', List.filter_cons, ih]

/-- Claim C4 (amended): `_filter_redundant_nodes` computes exactly the amended
filtering rule — comparisons are done on stripped, lowercased texts, bright
entries that strip to empty are ignored, fragment nodes whose stripped text is
empty are dropped whenever the bright list is non-empty, and the original list
is returned when the bright list is empty or when filtering would drop every
node. -/
theorem c4_filter_matches_amended_claim (new_nodes : List FNode)
    (bright_texts : List (List Char)) :
    filter_redundant_nodes new_nodes bright_texts =
      claim_filter_amended new_nodes bright_texts := by
  unfold filter_redundant_nodes claim_filter_amended
  by_cases hb : bright_texts.isEmpty
  · simp [hb]
  · have hb' : bright_texts.isEmpty = false := by simpa using hb
    simp only [hb', Bool.false_eq_true, if_false]
    rw [filter_loop_eq_filter, bright_list_eq]

/-- Claim C4, counterexample to the literal statement: with fragment nodes
`[" ", "xyz"]` (texts) and bright texts `["abc"]`, the node with text `" "`
is neither a substring of `"abc"` nor contains it, so the claimed rule keeps
both nodes; the code strips the text to empty and silently drops that node. -/
theorem c4_counterexample :
    filter_redundant_nodes
        [⟨none, ['r'], [' '], none⟩, ⟨none, ['r'], ['x', 'y', 'z'], none⟩]
        [['a', 'b', 'c']] =
      [⟨none, ['r'], ['x', 'y', 'z'], none⟩] ∧
    claim_filter_literal
        [⟨none, ['r'], [' '], none⟩, ⟨none, ['r'], ['x', 'y', 'z'], none⟩]
        [['a', 'b', 'c']] =
      [⟨none, ['r'], [' '], none⟩, ⟨none, ['r'], ['x', 'y', 'z'], none⟩] := by
  constructor
  · decide
  · decide

/-- A row of the `flowchart_content` table. -/
structure ContentRow where
  id : Nat
  content : List Char
  node_type : List Char
  deriving DecidableEq, Repr

/-- Largest id present in the content table (`0` when empty); autoincrement
assigns `max + 1` to the next inserted row. -/
def max_content_id (st : List ContentRow) : Nat :=
  st.foldl (fun m r => max m r.id) 0

/-- The kind normalization applied by `_get_or_insert_content_id`:
`str(node_type or 'rect')[:50]`. -/
def norm_node_type (ntype : List Char) : List Char :=
  (pyOrElse ntype ("rect".toList)).take 50

/-- `_get_or_insert_content_id(cur, conn, content, node_type)`: look up the
first row matching `(content, node_type)` after normalizing the kind, return
its id if found, otherwise insert a fresh row and return its id. -/
def get_or_insert_content_id (st : List ContentRow) (content ntype : List Char) :
    Nat × List ContentRow :=
  let k := norm_node_type ntype
  match st.find? (fun row => row.content == content && row.node_type == k) with
  | some row => (row.id, st)
  | none =>
    let nid := max_content_id st + 1
    (nid, st ++ [⟨nid, content, k⟩])

/-- Transcription of claim C5 as literally stated: an exact-match lookup on the
pair `(text, kind)` with no normalization, inserting a new `(text, kind)` row
when absent. -/
def claim_get_or_insert (st : List ContentRow) (content ntype : List Char) :
    Nat × List ContentRow :=
  match st.find? (fun row => row.content == content && row.node_type == ntype) with
  | some row => (row.id, st)
  | none =>
    let nid := max_content_id st + 1
    (nid, st ++ [⟨nid, content, ntype⟩])

theorem find?_append_of_none {α : Type _} {p : α → Bool} {l₁ l₂ : List α}
    (h : l₁.find? p = none) : (l₁ ++ l₂).find? p = l₂.find? p := by
  induction l₁ with
  | nil => rfl
  | cons a l ih =>
    cases hpa : p a with
    | true => rw [List.find?_cons_of_pos _ hpa] at h; exact absurd h (by simp)
    | false =>
      rw [List.find?_cons_of_neg _ (by simp [hpa])] at h
      rw [List.cons_append, List.find?_cons_of_neg _ (by simp [hpa])]
      exact ih h

/-- Claim C5 (amended): `_get_or_insert_content_id` is an exact-match
get-or-insert on the pair `(text, kind)` after normalizing the kind (an empty
kind becomes `'rect'` and the kind is truncated to 50 characters); the text is
never altered and no case-folding occurs; and two sequential calls with
identical arguments return the same id, the second call leaving the store
unchanged. -/
theorem c5_get_or_insert_matches_amended_claim (st : List ContentRow)
    (content ntype : List Char) :
    get_or_insert_content_id st content ntype =
      claim_get_or_insert st content (norm_node_type ntype) ∧
    (get_or_insert_content_id (get_or_insert_content_id st content ntype).2 content ntype).1 =
      (get_or_insert_content_id st content ntype).1 ∧
    (get_or_insert_content_id (get_or_insert_content_id st content ntype).2 content ntype).2 =
      (get_or_insert_content_id st content ntype).2 := by
  refine ⟨rfl, ?_⟩
  unfold get_or_insert_content_id
  cases hfind : st.find? (fun row => row.content == content && row.node_type == norm_node_type ntype) with
  | some row => simp [hfind]
  | none =>
    simp [hfind, List.find?_append, List.find?_cons]

/-- Claim C5, counterexample to the literal statement: the kinds `""` and
`"rect"` are distinct, yet the code maps both to the same stored row (an empty
kind is normalized to `'rect'` before the lookup), so the lookup is not an
exact match on the pair; under the claimed exact-match semantics the second
call would insert a second row with id 2 instead of returning id 1. -/
theorem c5_counterexample :
    (get_or_insert_content_id (get_or_insert_content_id [] ['a'] []).2 ['a'] ("rect".toList)).1 = 1 ∧
    (claim_get_or_insert (claim_get_or_insert [] ['a'] []).2 ['a'] ("rect".toList)).1 = 2 ∧
    ([] : List Char) ≠ "rect".toList := by
  refine ⟨by decide, by decide, by decide⟩

/-- A flowchart edge dictionary `{'from': ..., 'to': ..., 'label': ...}`. -/
structure FEdge where
  efrom : Nat
  eto : Nat
  elabel : List Char
  deriving DecidableEq, Repr

/-- `flow_spec`: the node list plus the edge list. -/
structure FlowSpec where
  nodes : List FNode
  edges : List FEdge
  deriving DecidableEq, Repr

/-- The interactive window's graph state: `flow_steps` plus the optional
`flow_spec` (the code treats `flow_spec = None` and structured specs
separately). -/
structure FlowState where
  steps : List (List Char)
  spec : Option FlowSpec
  deriving DecidableEq, Repr

/-- `total = len(flow_spec['nodes']) if (flow_spec and flow_spec.get('nodes'))
else len(flow_steps or [])`, the node count used by the fully-bright test and
the prune/continue handlers. -/
def total_nodes (st : FlowState) : Nat :=
  match st.spec with
  | some sp => if sp.nodes.isEmpty then st.steps.length else sp.nodes.length
  | none => st.steps.length

/-- `_is_flowchart_fully_bright(flow_steps, flow_spec, num_bright)`:
`total > 0 and num_bright >= total`. -/
def is_flowchart_fully_bright (st : FlowState) (num_bright : Nat) : Bool :=
  decide (0 < total_nodes st) && decide (total_nodes st ≤ num_bright)

/-- The `num_bright` initialization of `_open_interactive_window`:
`num_bright = 2 if num_bright is None else max(1, min(num_bright, 999))`. -/
def open_interactive_num_bright (num_bright : Option Nat) : Nat :=
  match num_bright with
  | none => 2
  | some v => max 1 (min v 999)

/-- The cursor computation of `on_continue`:
`next_bright = min(nb + 1, len(flow_steps) or 999)`, overridden by
`min(nb + 1, len(flow_spec['nodes']))` when the spec has nodes. -/
def on_continue_next_bright (st : FlowState) (nb : Nat) : Nat :=
  let next1 := min (nb + 1) (if st.steps.isEmpty then 999 else st.steps.length)
  match st.spec with
  | some sp => if sp.nodes.isEmpty then next1 else min (nb + 1) sp.nodes.length
  | none => next1

/-- The cursor of the window opened by a continue step: `on_continue` passes
`next_bright` to `_open_interactive_window`, which clamps it to `[1, 999]`. -/
def continue_growth_cursor (st : FlowState) (nb : Nat) : Nat :=
  open_interactive_num_bright (some (on_continue_next_bright st nb))

/-- `enumerate(l)` starting at index `i`. -/
def enum_from {α : Type _} (i : Nat) : List α → List (Nat × α)
  | [] => []
  | a :: as => (i, a) :: enum_from (i + 1) as

/-- `n.get('id', i + 1)`: the effective id of the node at position `i`. -/
def eff_id (i : Nat) (n : FNode) : Nat :=
  n.id.getD (i + 1)

/-- `keep_ids = {n.get('id', i + 1) for i, n in enumerate(nodes)}`. -/
def keep_ids (nodes : List FNode) : List Nat :=
  (enum_from 0 nodes).map (fun p => eff_id p.1 p.2)

/-- The `裁去` (cut) handler `_on_caiqu` after the dialog returns `sel`:
no-op for `sel < 1`; otherwise truncate to `new_len = sel - 1` nodes, keep
edges whose endpoints both survive, and set `num_bright = min(nb, new_len)`. -/
def caiqu_prune (st : FlowState) (sel : Nat) (nb : Nat) : FlowState × Nat :=
  if sel < 1 then (st, nb)
  else
    let new_len := sel - 1
    if new_len = 0 then
      (⟨[], st.spec.map (fun sp => if sp.nodes.isEmpty then sp else ⟨[], []⟩)⟩, min nb 0)
    else
      (⟨st.steps.take new_len,
        st.spec.map (fun sp =>
          if sp.nodes.isEmpty then sp
          else
            let kept := sp.nodes.take new_len
            ⟨kept, sp.edges.filter (fun e =>
              (keep_ids kept).contains e.efrom && (keep_ids kept).contains e.eto)⟩)⟩,
       min nb new_len)

/-- Claim C7, counterexample: on an empty graph (reachable by cutting away all
nodes, which leaves the continue button enabled) the continue step computes
`min(nb + 1, 999)` — the zero length is replaced by `999` — and the new window
clamps the cursor up to `1`, so the cursor advances past the graph length `0`,
where the claimed `min(cursor + 1, length)` would give `0`. -/
theorem c7_counterexample :
    continue_growth_cursor ⟨[], none⟩ 0 = 1 ∧
    total_nodes ⟨[], none⟩ = 0 ∧
    is_flowchart_fully_bright ⟨[], none⟩ 0 = false ∧
    ¬ continue_growth_cursor ⟨[], none⟩ 0 ≤ total_nodes ⟨[], none⟩ ∧
    continue_growth_cursor ⟨[], none⟩ 0 ≠ min (0 + 1) (total_nodes ⟨[], none⟩) := by
  refine ⟨by decide, by decide, by decide, by decide, by decide⟩

/-- Claim C7 (amended): for every graph state with at least one node (and at
most 999, the window clamp), a continue step sets the cursor to
`min(cursor + 1, length)`, hence never past the graph's current length and
forward by exactly one node per accepted step; the full state
(`cursor ≥ length > 0`) is exactly the state that disables the continue
button.  On the empty graph the length bound is not applied (the code replaces
the zero length by 999 and the new window raises the cursor to at least 1). -/
theorem c7_continue_growth_cursor (st : FlowState) (nb : Nat)
    (hpos : 0 < total_nodes st) (hcap : total_nodes st ≤ 999) :
    continue_growth_cursor st nb = min (nb + 1) (total_nodes st) ∧
    continue_growth_cursor st nb ≤ total_nodes st ∧
    (is_flowchart_fully_bright st nb = true ↔ total_nodes st ≤ nb) := by
  have hnext : on_continue_next_bright st nb = min (nb + 1) (total_nodes st) := by
    rcases st with ⟨steps, spec⟩
    cases spec with
    | none =>
      simp only [total_nodes] at hpos ⊢
      unfold on_continue_next_bright
      have hne : steps.isEmpty = false := by
        cases steps with
        | nil => simp at hpos
        | cons a l => rfl
      simp [hne]
    | some sp =>
      by_cases hn : sp.nodes.isEmpty
      · simp only [total_nodes, hn, if_pos] at hpos ⊢
        unfold on_continue_next_bright
        have hne : steps.isEmpty = false := by
          cases steps with
          | nil => simp at hpos
          | cons a l => rfl
        simp [hn, hne]
      · have hn' : sp.nodes.isEmpty = false := by simpa using hn
        simp only [total_nodes, hn', Bool.false_eq_true, if_false]
        unfold on_continue_next_bright
        simp [hn']
  refine ⟨?_, ?_, ?_⟩
  · unfold continue_growth_cursor open_interactive_num_bright
    rw [hnext]
    simp only []
    omega
  · unfold continue_growth_cursor open_interactive_num_bright
    rw [hnext]
    simp only []
    omega
  · unfold is_flowchart_fully_bright
    constructor
    · intro h
      have := Bool.and_elim_right h
      simpa using this
    · intro h
      simp [hpos, h]

/-- Witness for claim C7 at a concrete state: on a two-node graph with
cursor 1, the continue step moves the cursor to `min 2 2 = 2`. -/
theorem c7_witness :
    continue_growth_cursor ⟨[['a'], ['b']], none⟩ 1 =
      min (1 + 1) (total_nodes ⟨[['a'], ['b']], none⟩) ∧
    continue_growth_cursor ⟨[['a'], ['b']], none⟩ 1 ≤ total_nodes ⟨[['a'], ['b']], none⟩ ∧
    (is_flowchart_fully_bright ⟨[['a'], ['b']], none⟩ 1 = true ↔
      total_nodes ⟨[['a'], ['b']], none⟩ ≤ 1) :=
  c7_continue_growth_cursor ⟨[['a'], ['b']], none⟩ 1 (by decide) (by decide)

/-- Claim C8, counterexample: opening an interaction on a one-node graph (the
code only requires a non-empty graph) initializes the cursor to `2`, not
`min(2, length) = 1`, so the invariant `cursor ≤ N` fails in the initial
state. -/
theorem c8_counterexample :
    open_interactive_num_bright none = 2 ∧
    total_nodes ⟨[['a']], none⟩ = 1 ∧
    open_interactive_num_bright none ≠ min 2 (total_nodes ⟨[['a']], none⟩) ∧
    ¬ open_interactive_num_bright none ≤ total_nodes ⟨[['a']], none⟩ := by
  refine ⟨by decide, by decide, by decide, by decide⟩

/-- Claim C8 (amended): on opening an interaction with no explicit cursor the
bright cursor is initialized to the constant `2` (an explicitly passed cursor
is clamped to `[1, 999]`), so the invariant `0 ≤ cursor ≤ N` holds in the
initial state exactly when the graph has at least two nodes; for a one-node
graph the initial cursor `2` exceeds the length. -/
theorem c8_initial_cursor (st : FlowState) (v : Nat)
    (h2 : 2 ≤ total_nodes st) :
    open_interactive_num_bright none = 2 ∧
    open_interactive_num_bright none ≤ total_nodes st ∧
    1 ≤ open_interactive_num_bright (some v) ∧
    open_interactive_num_bright (some v) ≤ 999 := by
  refine ⟨rfl, h2, ?_, ?_⟩
  · show (1 : Nat) ≤ max 1 (min v 999)
    exact le_max_left 1 _
  · show max 1 (min v 999) ≤ 999
    exact max_le (by norm_num) (min_le_right v 999)

/-- Witness for claim C8 at a concrete state: on a two-node graph the initial
cursor `2` respects the invariant. -/
theorem c8_witness :
    open_interactive_num_bright none = 2 ∧
    open_interactive_num_bright none ≤ total_nodes ⟨[['a'], ['b']], none⟩ ∧
    1 ≤ open_interactive_num_bright (some 5) ∧
    open_interactive_num_bright (some 5) ≤ 999 :=
  c8_initial_cursor ⟨[['a'], ['b']], none⟩ 5 (by decide)

/-- Claim C9, counterexample: cutting from the first highlighted node prunes
the graph to length `0`, and `isFullyBright(0)` is then `false` (the code
requires `total > 0`), contradicting "`isFullyBright(n)` is true for any `n`
equal to the current length". -/
theorem c9_counterexample :
    (caiqu_prune ⟨[['a']], none⟩ 1 1).1 = ⟨[], none⟩ ∧
    total_nodes (caiqu_prune ⟨[['a']], none⟩ 1 1).1 = 0 ∧
    is_flowchart_fully_bright (caiqu_prune ⟨[['a']], none⟩ 1 1).1
      (total_nodes (caiqu_prune ⟨[['a']], none⟩ 1 1).1) = false := by
  refine ⟨by decide, by decide, by decide⟩

/-- Claim C9 (amended): `isFullyBright(cursor)` holds iff `cursor ≥ length`
and `length > 0`; and after a prune, `isFullyBright(n)` holds for `n` equal to
the current length provided that length is positive. -/
theorem c9_fully_bright (st : FlowState) (nb sel nb' : Nat) :
    (is_flowchart_fully_bright st nb = true ↔
      0 < total_nodes st ∧ total_nodes st ≤ nb) ∧
    (0 < total_nodes (caiqu_prune st sel nb').1 →
      is_flowchart_fully_bright (caiqu_prune st sel nb').1
        (total_nodes (caiqu_prune st sel nb').1) = true) := by
  constructor
  · unfold is_flowchart_fully_bright
    simp
  · intro h
    unfold is_flowchart_fully_bright
    simp [h]

/-- Witness for claim C9 at a concrete state: cutting from node 2 of a
one-node graph keeps the single node, and the fully-bright test holds at the
resulting length. -/
theorem c9_witness :
    0 < total_nodes (caiqu_prune ⟨[['a']], none⟩ 2 1).1 ∧
    is_flowchart_fully_bright (caiqu_prune ⟨[['a']], none⟩ 2 1).1
      (total_nodes (caiqu_prune ⟨[['a']], none⟩ 2 1).1) = true :=
  ⟨by decide, (c9_fully_bright ⟨[['a']], none⟩ 0 2 1).2 (by decide)⟩

/-- `last_id = max(n.get('id', i + 1) for i, n in enumerate(nodes))` from the
merge code in `on_send` / `_on_fansi` (the merge only runs on a non-empty
graph; on an empty list this model returns 0 where Python would raise). -/
def last_node_id (nodes : List FNode) : Nat :=
  ((enum_from 0 nodes).map (fun p => eff_id p.1 p.2)).foldl max 0

/-- `id_map = {n.get('id', i + 1): base_id + i for i, n in enumerate(new_nodes)}`,
looked up at key `k`; later entries shadow earlier ones, as in a Python dict
comprehension. -/
def id_map_lookup (new_nodes : List FNode) (base k : Nat) : Option Nat :=
  (enum_from 0 new_nodes).foldl
    (fun acc p => if eff_id p.1 p.2 = k then some (base + p.1) else acc) none

/-- The per-edge remap of the merge: an edge survives iff both endpoints are
keys of `id_map`, in which case they are rewritten through the map
(`if f in id_map and t in id_map: edges.append(...)`). -/
def remap_edge (new_nodes : List FNode) (base : Nat) (e : FEdge) : Option FEdge :=
  match id_map_lookup new_nodes base e.efrom, id_map_lookup new_nodes base e.eto with
  | some a, some b => some ⟨a, b, e.elabel⟩
  | _, _ => none

/-- The fragment merge of `on_send` (lines 2607–2629) and `_on_fansi`
(lines 1443–1463): compute `base_id = last_id + 1`, append one connecting edge
`(last_id → base_id)` with an empty label, append the fragment nodes with
fresh ids `base_id + i` (the new node dictionaries carry no `db_content_id`),
and append the remapped fragment edges, dropping those whose endpoints are not
both in the id map. -/
def merge_fragment (sp frag : FlowSpec) : FlowSpec :=
  let last_id := last_node_id sp.nodes
  let base_id := last_id + 1
  let appended := (enum_from 0 frag.nodes).map
    (fun p => ({ id := some (base_id + p.1), ntype := p.2.ntype, text := p.2.text,
                 ref := none } : FNode))
  ⟨sp.nodes ++ appended,
   sp.edges ++ ({ efrom := last_id, eto := base_id, elabel := [] } : FEdge) ::
     frag.edges.filterMap (remap_edge frag.nodes base_id)⟩

theorem enum_from_length {α : Type _} : ∀ (l : List α) (i : Nat),
    (enum_from i l).length = l.length := by
  intro l
  induction l with
  | nil => intro i; rfl
  | cons a as ih => intro i; simp [enum_from, ih]

theorem enum_from_map_fst {α β : Type _} (f : Nat → β) :
    ∀ (l : List α) (i : Nat),
      (enum_from i l).map (fun p => f p.1) = (List.range l.length).map (fun j => f (i + j)) := by
  intro l
  induction l with
  | nil => intro i; rfl
  | cons a as ih =>
    intro i
    show f i :: (enum_from (i + 1) as).map (fun p => f p.1) = _
    rw [ih (i + 1), List.length_cons, List.range_succ_eq_map, List.map_cons, List.map_map]
    congr 1
    apply List.map_congr_left
    intro j hj
    congr 1
    omega

theorem foldl_id_map_isSome (base k : Nat) :
    ∀ (l : List (Nat × FNode)) (acc : Option Nat),
      (l.foldl (fun acc p => if eff_id p.1 p.2 = k then some (base + p.1) else acc) acc).isSome
        = (acc.isSome || l.any (fun p => eff_id p.1 p.2 == k)) := by
  intro l
  induction l with
  | nil => intro acc; simp
  | cons p l ih =>
    intro acc
    simp only [List.foldl_cons, List.any_cons]
    by_cases h : eff_id p.1 p.2 = k
    · simp [h, ih]
    · have hb : (eff_id p.1 p.2 == k) = false := by simp [h]
      simp [h, hb, ih]

theorem id_map_lookup_isSome (ns : List FNode) (base k : Nat) :
    (id_map_lookup ns base k).isSome = true ↔ k ∈ keep_ids ns := by
  unfold id_map_lookup keep_ids
  rw [foldl_id_map_isSome]
  simp only [Option.isSome_none, Bool.false_or, List.any_eq_true, List.mem_map, beq_iff_eq]

theorem remap_edge_isSome (ns : List FNode) (base : Nat) (e : FEdge) :
    (remap_edge ns base e).isSome = true ↔
      (e.efrom ∈ keep_ids ns ∧ e.eto ∈ keep_ids ns) := by
  rw [← id_map_lookup_isSome ns base e.efrom, ← id_map_lookup_isSome ns base e.eto]
  unfold remap_edge
  cases h1 : id_map_lookup ns base e.efrom <;> cases h2 : id_map_lookup ns base e.eto <;>
    simp [h1, h2]

/-- Claim C3: merging an accepted fragment onto a non-empty graph (whose last
node carries the maximal id, per the append-order invariant) assigns each
fragment node the fresh id `max + 1 + i` in fragment order, adds exactly one
connecting edge from the previous last node's id to the first new node's id
with an empty label, remaps every fragment-internal edge through the
old-to-new id table, and silently drops exactly the fragment edges whose
endpoints are not both keys of that table. -/
theorem c3_merge_fragment (sp frag : FlowSpec) (lastn : FNode)
    (h1 : sp.nodes.getLast? = some lastn)
    (h2 : eff_id (sp.nodes.length - 1) lastn = last_node_id sp.nodes)
    (h3 : frag.nodes ≠ []) :
    (merge_fragment sp frag).nodes.length = sp.nodes.length + frag.nodes.length ∧
    ((merge_fragment sp frag).nodes.drop sp.nodes.length).map FNode.id =
      (List.range frag.nodes.length).map (fun j => some (last_node_id sp.nodes + 1 + j)) ∧
    (merge_fragment sp frag).edges =
      sp.edges ++
        ({ efrom := eff_id (sp.nodes.length - 1) lastn,
           eto := last_node_id sp.nodes + 1, elabel := [] } : FEdge) ::
          frag.edges.filterMap (remap_edge frag.nodes (last_node_id sp.nodes + 1)) ∧
    (∀ e ∈ frag.edges,
      (remap_edge frag.nodes (last_node_id sp.nodes + 1) e).isSome = true ↔
        (e.efrom ∈ keep_ids frag.nodes ∧ e.eto ∈ keep_ids frag.nodes)) := by
  refine ⟨?_, ?_, ?_, ?_⟩
  · unfold merge_fragment
    simp [enum_from_length]
  · unfold merge_fragment
    simp only [List.drop_left, List.map_map]
    have := enum_from_map_fst
      (fun j => (some (last_node_id sp.nodes + 1 + j) : Option Nat)) frag.nodes 0
    simp only [Nat.zero_add] at this
    rw [← this]
    rfl
  · unfold merge_fragment
    rw [h2]
  · intro e he
    exact remap_edge_isSome frag.nodes _ e

/-- The two-node graph of the C3 scenario: bright nodes 1 and 2 with an edge
`1 → 2`. -/
def c3_sp0 : FlowSpec :=
  ⟨[⟨some 1, ['r'], ['A'], none⟩, ⟨some 2, ['r'], ['B'], none⟩], [⟨1, 2, []⟩]⟩

/-- The fragment of the C3 scenario: local nodes 1 and 2 with an edge `1 → 2`. -/
def c3_frag0 : FlowSpec :=
  ⟨[⟨some 1, ['r'], ['C'], none⟩, ⟨some 2, ['r'], ['D'], none⟩], [⟨1, 2, []⟩]⟩

/-- Witness for claim C3 at the scenario input: the fragment nodes get ids 3
and 4, the connecting edge is `(2 → 3)` with an empty label, and the fragment
edge is remapped to `(3 → 4)`. -/
theorem c3_witness :
    ((merge_fragment c3_sp0 c3_frag0).nodes.length =
        c3_sp0.nodes.length + c3_frag0.nodes.length ∧
      ((merge_fragment c3_sp0 c3_frag0).nodes.drop c3_sp0.nodes.length).map FNode.id =
        (List.range c3_frag0.nodes.length).map
          (fun j => some (last_node_id c3_sp0.nodes + 1 + j)) ∧
      (merge_fragment c3_sp0 c3_frag0).edges =
        c3_sp0.edges ++
          ({ efrom := eff_id (c3_sp0.nodes.length - 1) ⟨some 2, ['r'], ['B'], none⟩,
             eto := last_node_id c3_sp0.nodes + 1, elabel := [] } : FEdge) ::
            c3_frag0.edges.filterMap
              (remap_edge c3_frag0.nodes (last_node_id c3_sp0.nodes + 1)) ∧
      (∀ e ∈ c3_frag0.edges,
        (remap_edge c3_frag0.nodes (last_node_id c3_sp0.nodes + 1) e).isSome = true ↔
          (e.efrom ∈ keep_ids c3_frag0.nodes ∧ e.eto ∈ keep_ids c3_frag0.nodes))) ∧
    (merge_fragment c3_sp0 c3_frag0).nodes.map FNode.id =
      [some 1, some 2, some 3, some 4] ∧
    (merge_fragment c3_sp0 c3_frag0).edges = [⟨1, 2, []⟩, ⟨2, 3, []⟩, ⟨3, 4, []⟩] :=
  ⟨c3_merge_fragment c3_sp0 c3_frag0 ⟨some 2, ['r'], ['B'], none⟩
      (by decide) (by decide) (by decide),
    by decide, by decide⟩

/-- A row of the `flowchart_session` table. -/
structure SessionRow where
  id : Nat
  mode : List Char
  model_name : List Char
  summary : List Char
  node_sequence : List Nat
  deriving DecidableEq, Repr

/-- A record type for one entry of `nodes_data` in `_save_to_database`:
`(str(n.get('text', '')), n.get('type', 'rect') or 'rect', n.get('db_content_id'))`. -/
structure NodeData where
  text : List Char
  ntype : List Char
  ref : Option Nat
  deriving DecidableEq, Repr

/-- The embedded SQLite store: the `flowchart_content` and `flowchart_session`
tables (the `retrieval_label` table is modelled separately by `LabelRow`
lists). -/
structure MemoryDB where
  contents : List ContentRow
  sessions : List SessionRow
  deriving DecidableEq, Repr

/-- Largest id present in the session table (`0` when empty). -/
def max_session_id (l : List SessionRow) : Nat :=
  l.foldl (fun m r => max m r.id) 0

/-- The `nodes_data` list built by `_save_to_database` from `flow_spec['nodes']`. -/
def nodes_data_of (nodes : List FNode) : List NodeData :=
  nodes.map (fun n => ⟨n.text, pyOrElse n.ntype ("rect".toList), n.ref⟩)

/-- The id-resolution loop of `_save_to_database`: reuse `db_content_id` when
present, otherwise call `_get_or_insert_content_id`, threading the store. -/
def resolve_node_ids : List ContentRow → List NodeData → List Nat × List ContentRow
  | st, [] => ([], st)
  | st, d :: rest =>
    match d.ref with
    | some r =>
      (r :: (resolve_node_ids st rest).1, (resolve_node_ids st rest).2)
    | none =>
      ((get_or_insert_content_id st d.text d.ntype).1 ::
          (resolve_node_ids (get_or_insert_content_id st d.text d.ntype).2 rest).1,
        (resolve_node_ids (get_or_insert_content_id st d.text d.ntype).2 rest).2)

/-- `_save_to_database`: resolve every node to a content id, then insert one
session row carrying the id sequence (plus mode, model name and truncated
summary).  Returns `none` when there is nothing to save (the code returns
`False`); the retrieval-label insert performed afterwards touches neither
table modelled here. -/
def save_to_database (db : MemoryDB) (nodes : List FNode)
    (mode model_name summary : List Char) : Option (Nat × MemoryDB) :=
  let nd := nodes_data_of nodes
  if nd.isEmpty then none
  else
    let res := resolve_node_ids db.contents nd
    let sid := max_session_id db.sessions + 1
    some (sid,
      ⟨res.2,
        db.sessions ++
          [⟨sid, pyOrElse mode ("unknown".toList), model_name, summary.take 500, res.1⟩]⟩)

/-- `SELECT content, node_type FROM flowchart_content WHERE id = ?`. -/
def find_content_by_id (st : List ContentRow) (i : Nat) : Option ContentRow :=
  st.find? (fun r => r.id == i)

/-- The linear edges rebuilt by the loader:
`[{'from': i, 'to': i + 1, 'label': ''} for i in range(1, len(nodes))]`. -/
def chain_edges (n : Nat) : List FEdge :=
  (List.range (n - 1)).map (fun i => ⟨i + 1, i + 2, []⟩)

/-- The load path of `_load_from_database_by_query` after a session id is
selected: read the session's `node_sequence`, look each id up in
`flowchart_content` (missing rows are silently skipped), produce the ordered
`(content, node_type)` pairs and a strict linear chain of unlabeled edges. -/
def load_session (db : MemoryDB) (sid : Nat) :
    Option (List (List Char × List Char) × List FEdge) :=
  match db.sessions.find? (fun s => s.id == sid) with
  | none => none
  | some s =>
    let pairs := s.node_sequence.filterMap (fun nid =>
      (find_content_by_id db.contents nid).map
        (fun row => (row.content, pyOrElse row.node_type ("rect".toList))))
    some (pairs, chain_edges pairs.length)

theorem foldl_max_le_init {α : Type _} (f : α → Nat) :
    ∀ (l : List α) (acc : Nat), acc ≤ l.foldl (fun m x => max m (f x)) acc := by
  intro l
  induction l with
  | nil => intro acc; exact Nat.le_refl acc
  | cons a as ih =>
    intro acc
    exact le_trans (Nat.le_max_left acc (f a)) (ih (max acc (f a)))

theorem foldl_max_of_mem {α : Type _} (f : α → Nat) :
    ∀ (l : List α) (x : α), x ∈ l →
      ∀ acc, f x ≤ l.foldl (fun m y => max m (f y)) acc := by
  intro l
  induction l with
  | nil => intro x hx; cases hx
  | cons a as ih =>
    intro x hx acc
    rcases List.mem_cons.mp hx with h | h
    · subst h
      exact le_trans (Nat.le_max_right acc (f x)) (foldl_max_le_init f as _)
    · exact ih x h _

theorem mem_le_max_content {st : List ContentRow} {r : ContentRow} (h : r ∈ st) :
    r.id ≤ max_content_id st :=
  foldl_max_of_mem (fun r => r.id) st r h 0

theorem mem_le_max_session {l : List SessionRow} {s : SessionRow} (h : s ∈ l) :
    s.id ≤ max_session_id l :=
  foldl_max_of_mem (fun s => s.id) l s h 0

/-- Well-formedness of the content table: primary keys are distinct. -/
def ids_nodup (st : List ContentRow) : Prop :=
  (st.map (fun r => r.id)).Nodup

theorem find_content_by_id_of_mem :
    ∀ {st : List ContentRow} {row : ContentRow}, ids_nodup st → row ∈ st →
      find_content_by_id st row.id = some row := by
  intro st
  induction st with
  | nil => intro row _ hm; cases hm
  | cons a as ih =>
    intro row hd hm
    have hd' : ids_nodup as := by
      unfold ids_nodup at hd ⊢
      exact (List.nodup_cons.mp hd).2
    rcases List.mem_cons.mp hm with h | h
    · subst h
      unfold find_content_by_id
      rw [List.find?_cons_of_pos _ (by simp)]
    · have hne : (a.id == row.id) = false := by
        have hnotin : a.id ∉ as.map (fun r => r.id) := (List.nodup_cons.mp hd).1
        have hin : row.id ∈ as.map (fun r => r.id) := List.mem_map_of_mem _ h
        simp only [beq_eq_false_iff_ne, ne_eq]
        intro he
        exact hnotin (he ▸ hin)
      unfold find_content_by_id
      rw [List.find?_cons_of_neg _ (by simp [hne])]
      exact ih hd' h

theorem find_content_stable {st ext : List ContentRow} {i : Nat} {row : ContentRow}
    (h : find_content_by_id st i = some row) :
    find_content_by_id (st ++ ext) i = some row := by
  unfold find_content_by_id at h ⊢
  rw [List.find?_append, h]
  rfl

theorem norm_node_type_eq_self {k : List Char} (h1 : k ≠ []) (h2 : k.length ≤ 50) :
    norm_node_type k = k := by
  unfold norm_node_type pyOrElse
  have he : k.isEmpty = false := by
    cases k with
    | nil => exact absurd rfl h1
    | cons a l => rfl
  rw [he]
  simp only [Bool.false_eq_true, if_false]
  exact List.take_of_length_le h2

theorem get_or_insert_extends (st : List ContentRow) (c k : List Char) :
    ∃ ext, (get_or_insert_content_id st c k).2 = st ++ ext := by
  unfold get_or_insert_content_id
  cases hfind : st.find? (fun row => row.content == c && row.node_type == norm_node_type k) with
  | some row => exact ⟨[], by simp [hfind]⟩
  | none => exact ⟨[⟨max_content_id st + 1, c, norm_node_type k⟩], by simp [hfind]⟩

theorem get_or_insert_nodup {st : List ContentRow} (hd : ids_nodup st) (c k : List Char) :
    ids_nodup (get_or_insert_content_id st c k).2 := by
  unfold get_or_insert_content_id
  cases hfind : st.find? (fun row => row.content == c && row.node_type == norm_node_type k) with
  | some row => simpa [hfind] using hd
  | none =>
    simp only [hfind]
    unfold ids_nodup at hd ⊢
    rw [List.map_append]
    refine List.Nodup.append hd (List.nodup_singleton _) ?_
    intro x hx hx'
    simp only [List.map_cons, List.map_nil, List.mem_singleton] at hx'
    subst hx'
    obtain ⟨row, hrow, hrid⟩ := List.mem_map.mp hx
    have := mem_le_max_content hrow
    omega

theorem get_or_insert_lookup {st : List ContentRow} (hd : ids_nodup st) (c k : List Char) :
    ∃ row, find_content_by_id (get_or_insert_content_id st c k).2
        (get_or_insert_content_id st c k).1 = some row ∧
      row.content = c ∧ row.node_type = norm_node_type k := by
  unfold get_or_insert_content_id
  cases hfind : st.find? (fun row => row.content == c && row.node_type == norm_node_type k) with
  | some row =>
    simp only [hfind]
    have hp := List.find?_some hfind
    simp only [Bool.and_eq_true, beq_iff_eq] at hp
    exact ⟨row, find_content_by_id_of_mem hd (List.mem_of_find?_eq_some hfind), hp.1, hp.2⟩
  | none =>
    simp only [hfind]
    refine ⟨⟨max_content_id st + 1, c, norm_node_type k⟩, ?_, rfl, rfl⟩
    unfold find_content_by_id
    have hnone : st.find? (fun r => r.id == max_content_id st + 1) = none := by
      rw [List.find?_eq_none]
      intro x hx
      have := mem_le_max_content hx
      simp only [beq_iff_eq]
      omega
    rw [find?_append_of_none hnone]
    simp

/-- The hypotheses of the round trip, for one `nodes_data` entry: a kind that
survives normalization, and a `db_content_id` (when present) that points at a
store row holding exactly the entry's text and kind. -/
def nd_ok (st : List ContentRow) (nd : List NodeData) : Prop :=
  ∀ d ∈ nd, d.ntype ≠ [] ∧ d.ntype.length ≤ 50 ∧
    ∀ r, d.ref = some r →
      ∃ row ∈ st, row.id = r ∧ row.content = d.text ∧ row.node_type = d.ntype

theorem resolve_node_ids_spec :
    ∀ (nd : List NodeData) (st : List ContentRow), ids_nodup st → nd_ok st nd →
      (∃ ext, (resolve_node_ids st nd).2 = st ++ ext) ∧
      ids_nodup (resolve_node_ids st nd).2 ∧
      List.Forall₂
        (fun (d : NodeData) (i : Nat) =>
          ∃ row, find_content_by_id (resolve_node_ids st nd).2 i = some row ∧
            row.content = d.text ∧ row.node_type = d.ntype)
        nd (resolve_node_ids st nd).1 := by
  intro nd
  induction nd with
  | nil =>
    intro st hd _
    exact ⟨⟨[], by simp [resolve_node_ids]⟩, by simpa [resolve_node_ids] using hd,
      by simp [resolve_node_ids]⟩
  | cons d rest ih =>
    intro st hd hok
    obtain ⟨hty_ne, hty_le, href_ok⟩ := hok d (List.mem_cons_self d rest)
    cases href : d.ref with
    | some r =>
      obtain ⟨row, hrow_mem, hrow_id, hrow_c, hrow_t⟩ := href_ok r href
      have hok' : nd_ok st rest := fun d' hd' => hok d' (List.mem_cons_of_mem _ hd')
      obtain ⟨⟨ext, hext⟩, hnodup', hforall⟩ := ih st hd hok'
      have hfind_st : find_content_by_id st r = some row := by
        have h := find_content_by_id_of_mem hd hrow_mem
        rwa [hrow_id] at h
      have hfind : find_content_by_id (resolve_node_ids st rest).2 r = some row := by
        rw [hext]
        exact find_content_stable hfind_st
      refine ⟨⟨ext, ?_⟩, ?_, ?_⟩
      · simp [resolve_node_ids, href, hext]
      · simpa [resolve_node_ids, href] using hnodup'
      · simp only [resolve_node_ids, href]
        exact List.Forall₂.cons ⟨row, hfind, hrow_c, hrow_t⟩ hforall
    | none =>
      obtain ⟨ext0, hg⟩ := get_or_insert_extends st d.text d.ntype
      have hnodup0 := get_or_insert_nodup hd d.text d.ntype
      obtain ⟨row0, hlook0, hc0, ht0⟩ := get_or_insert_lookup hd d.text d.ntype
      have ht0' : row0.node_type = d.ntype := by
        rw [ht0, norm_node_type_eq_self hty_ne hty_le]
      have hok' : nd_ok (get_or_insert_content_id st d.text d.ntype).2 rest := by
        intro d' hd'
        obtain ⟨h1, h2, h3⟩ := hok d' (List.mem_cons_of_mem _ hd')
        refine ⟨h1, h2, ?_⟩
        intro r' hr'
        obtain ⟨row', hrow', hrest⟩ := h3 r' hr'
        exact ⟨row', by rw [hg]; exact List.mem_append_left _ hrow', hrest⟩
      obtain ⟨⟨ext1, hext1⟩, hnodup1, hforall1⟩ :=
        ih (get_or_insert_content_id st d.text d.ntype).2 hnodup0 hok'
      have hfind : find_content_by_id
          (resolve_node_ids (get_or_insert_content_id st d.text d.ntype).2 rest).2
          (get_or_insert_content_id st d.text d.ntype).1 = some row0 := by
        rw [hext1]
        exact find_content_stable hlook0
      refine ⟨⟨ext0 ++ ext1, ?_⟩, ?_, ?_⟩
      · simp only [resolve_node_ids, href]
        rw [hext1, hg, List.append_assoc]
      · simpa [resolve_node_ids, href] using hnodup1
      · simp only [resolve_node_ids, href]
        exact List.Forall₂.cons ⟨row0, hfind, hc0, ht0'⟩ hforall1

theorem filterMap_lookup_eq_map (stF : List ContentRow) :
    ∀ {nd : List NodeData} {ids : List Nat},
      List.Forall₂
        (fun (d : NodeData) (i : Nat) =>
          ∃ row, find_content_by_id stF i = some row ∧
            row.content = d.text ∧ row.node_type = d.ntype) nd ids →
      (∀ d ∈ nd, d.ntype ≠ []) →
      ids.filterMap (fun nid => (find_content_by_id stF nid).map
        (fun row => (row.content, pyOrElse row.node_type ("rect".toList)))) =
      nd.map (fun d => (d.text, d.ntype)) := by
  intro nd ids hf
  induction hf with
  | nil => intro _; rfl
  | @cons d i nd' ids' hP hF ih =>
    intro hty
    obtain ⟨row, hlook, hc, ht⟩ := hP
    have hne : d.ntype ≠ [] := hty d (List.mem_cons_self d nd')
    have hpe : pyOrElse row.node_type ("rect".toList) = d.ntype := by
      rw [ht]
      unfold pyOrElse
      have he : d.ntype.isEmpty = false := by
        cases hcase : d.ntype with
        | nil => exact absurd hcase hne
        | cons a l => rfl
      rw [he]
      simp
    rw [List.filterMap_cons]
    simp only [hlook, Option.map_some']
    rw [hc, hpe, ih (fun d' hd' => hty d' (List.mem_cons_of_mem _ hd'))]
    rfl

/-- Claim C6 (amended): for every non-empty graph whose node kinds are
non-empty and at most 50 characters (as all of `rect`, `diamond` and `rounded`
are), whose `db_content_id` references (when present) point at store rows
holding exactly the node's text and kind, and over a well-formed content
table, loading the session produced by saving the graph yields exactly the
graph's ordered `(text, kind)` sequence, while the reconstructed edges are the
strict linear chain `i → i+1` with empty labels, regardless of the original
edge topology. -/
theorem c6_save_load_round_trip (db : MemoryDB) (nodes : List FNode)
    (mode model_name summary : List Char)
    (h1 : nodes ≠ [])
    (h2 : ∀ n ∈ nodes, n.ntype ≠ [] ∧ n.ntype.length ≤ 50)
    (h3 : ∀ n ∈ nodes, ∀ r, n.ref = some r →
      ∃ row ∈ db.contents, row.id = r ∧ row.content = n.text ∧ row.node_type = n.ntype)
    (h4 : ids_nodup db.contents) :
    ∃ db', save_to_database db nodes mode model_name summary =
        some (max_session_id db.sessions + 1, db') ∧
      load_session db' (max_session_id db.sessions + 1) =
        some (nodes.map (fun n => (n.text, n.ntype)), chain_edges nodes.length) := by
  have hnd_ne : (nodes_data_of nodes).isEmpty = false := by
    unfold nodes_data_of
    cases nodes with
    | nil => exact absurd rfl h1
    | cons n l => rfl
  have hpy : ∀ n ∈ nodes, pyOrElse n.ntype ("rect".toList) = n.ntype := by
    intro n hn
    obtain ⟨hne, _⟩ := h2 n hn
    unfold pyOrElse
    have he : n.ntype.isEmpty = false := by
      cases hcase : n.ntype with
      | nil => exact absurd hcase hne
      | cons a l => rfl
    rw [he]
    simp
  have hok : nd_ok db.contents (nodes_data_of nodes) := by
    intro d hdm
    obtain ⟨n, hn, hdn⟩ := List.mem_map.mp hdm
    have hpn := hpy n hn
    subst hdn
    refine ⟨?_, ?_, ?_⟩
    · show pyOrElse n.ntype ("rect".toList) ≠ []
      rw [hpn]
      exact (h2 n hn).1
    · show (pyOrElse n.ntype ("rect".toList)).length ≤ 50
      rw [hpn]
      exact (h2 n hn).2
    · intro r hr
      have hr' : n.ref = some r := hr
      obtain ⟨row, hrow, hid, hc, ht⟩ := h3 n hn r hr'
      refine ⟨row, hrow, hid, hc, ?_⟩
      show row.node_type = pyOrElse n.ntype ("rect".toList)
      rw [hpn]
      exact ht
  obtain ⟨⟨ext, hext⟩, hnodupF, hforall⟩ :=
    resolve_node_ids_spec (nodes_data_of nodes) db.contents h4 hok
  refine ⟨⟨(resolve_node_ids db.contents (nodes_data_of nodes)).2,
      db.sessions ++
        [⟨max_session_id db.sessions + 1, pyOrElse mode ("unknown".toList), model_name,
          summary.take 500, (resolve_node_ids db.contents (nodes_data_of nodes)).1⟩]⟩,
    ?_, ?_⟩
  · unfold save_to_database
    simp only [hnd_ne, Bool.false_eq_true, if_false]
  · have hold : db.sessions.find? (fun s => s.id == max_session_id db.sessions + 1) = none := by
      rw [List.find?_eq_none]
      intro x hx
      have := mem_le_max_session hx
      simp only [beq_iff_eq]
      omega
    have hfind_sess : ((db.sessions ++
        ([⟨max_session_id db.sessions + 1, pyOrElse mode ("unknown".toList), model_name,
          summary.take 500, (resolve_node_ids db.contents (nodes_data_of nodes)).1⟩] :
            List SessionRow)).find?
          (fun s => s.id == max_session_id db.sessions + 1)) =
        some (⟨max_session_id db.sessions + 1, pyOrElse mode ("unknown".toList), model_name,
          summary.take 500, (resolve_node_ids db.contents (nodes_data_of nodes)).1⟩ :
            SessionRow) := by
      rw [find?_append_of_none hold]
      simp
    have hty' : ∀ d ∈ nodes_data_of nodes, d.ntype ≠ [] := fun d hd => (hok d hd).1
    have hpairs := filterMap_lookup_eq_map
      (resolve_node_ids db.contents (nodes_data_of nodes)).2 hforall hty'
    have hmap : (nodes_data_of nodes).map (fun d => (d.text, d.ntype)) =
        nodes.map (fun n => (n.text, n.ntype)) := by
      unfold nodes_data_of
      rw [List.map_map]
      apply List.map_congr_left
      intro n hn
      show (n.text, pyOrElse n.ntype ("rect".toList)) = (n.text, n.ntype)
      rw [hpy n hn]
    unfold load_session
    rw [hfind_sess]
    show some ((resolve_node_ids db.contents (nodes_data_of nodes)).1.filterMap
        (fun nid => (find_content_by_id
            (resolve_node_ids db.contents (nodes_data_of nodes)).2 nid).map
          (fun row => (row.content, pyOrElse row.node_type ("rect".toList)))),
      chain_edges ((resolve_node_ids db.contents (nodes_data_of nodes)).1.filterMap
        (fun nid => (find_content_by_id
            (resolve_node_ids db.contents (nodes_data_of nodes)).2 nid).map
          (fun row => (row.content, pyOrElse row.node_type ("rect".toList))))).length) =
      some (nodes.map (fun n => (n.text, n.ntype)), chain_edges nodes.length)
    rw [hpairs, hmap, List.length_map]

/-- Witness for claim C6 at a concrete graph: saving two nodes with kinds
`rect` and `diamond` into an empty store and loading the resulting session
returns the same `(text, kind)` pairs and the chain edge `1 → 2`. -/
theorem c6_witness :
    ∃ db', save_to_database ⟨[], []⟩
        [⟨some 1, "rect".toList, ['A'], none⟩, ⟨some 2, "diamond".toList, ['B'], none⟩]
        ("deepseek".toList) ("m".toList) [] =
        some (max_session_id ([] : List SessionRow) + 1, db') ∧
      load_session db' (max_session_id ([] : List SessionRow) + 1) =
        some (([⟨some 1, "rect".toList, ['A'], none⟩,
               ⟨some 2, "diamond".toList, ['B'], none⟩] : List FNode).map
                (fun n => (n.text, n.ntype)),
          chain_edges
            ([⟨some 1, "rect".toList, ['A'], (none : Option Nat)⟩,
              ⟨some 2, "diamond".toList, ['B'], none⟩] : List FNode).length) :=
  c6_save_load_round_trip ⟨[], []⟩
    [⟨some 1, "rect".toList, ['A'], none⟩, ⟨some 2, "diamond".toList, ['B'], none⟩]
    ("deepseek".toList) ("m".toList) []
    (by decide) (by decide)
    (by
      intro n hn r hr
      simp only [List.mem_cons, List.not_mem_nil, or_false] at hn
      rcases hn with rfl | rfl <;> simp at hr)
    (by simp [ids_nodup])

/-- Claim C6, counterexample to the literal statement: a single-node graph
whose kind is the empty string round-trips to kind `"rect"` (the save path
normalizes a falsy kind via `n.get('type', 'rect') or 'rect'`), so the loaded
`(text, kind)` sequence differs from the graph's. -/
theorem c6_counterexample :
    (match save_to_database ⟨[], []⟩ [⟨some 1, [], ['h', 'i'], none⟩] [] [] [] with
     | some (sid, db') => load_session db' sid
     | none => none) =
      some ([(['h', 'i'], ['r', 'e', 'c', 't'])], []) ∧
    ([⟨some 1, [], ['h', 'i'], none⟩] : List FNode).map (fun n => (n.text, n.ntype)) =
      [(['h', 'i'], [])] ∧
    (['r', 'e', 'c', 't'] : List Char) ≠ [] := by
  refine ⟨by decide, by decide, by decide⟩
